import Mathlib

/-
  Verification development for the ternary-tools suite (src/ternary-tools.rs).

  The program has two cores that the claims touch:
    * a GGUF binary reader: little-endian primitive readers, a recursive
      typed metadata value decoder (parse_gguf_value), a metadata table
      decoder (parse_metadata), and a tensor preview path (gguf_show);
    * a ternary arithmetic expression evaluator (tritjs_eval_expression and
      its recursive-descent helpers) together with int_to_ternary.

  Modelling conventions:
    * a byte source (std::fs::File plus its cursor) is modelled as the list
      of bytes still ahead of the cursor; a reader returns its value and the
      remaining bytes;
    * machine integers are Nat/Int; signed reinterpretation casts are made
      explicit (toSigned); i32 arithmetic in the expression evaluator wraps
      explicitly (wrap32);
    * f32/f64 values are carried as their little-endian bit patterns (Nat);
      the numeric interpretation of the bits is never needed by the claims;
    * Rust String values decoded from GGUF are carried as raw byte lists
      (UTF-8 lossy decoding is modelled as the identity on byte sequences).
-/

/-! ## Byte cursor primitives (src lines 734-780)

The primitive readers in the source initialize a zero buffer and call
`file.read_exact(&mut buf).unwrap_or_default()`: a short read's error is
discarded, the bytes actually available fill the front of the buffer and the
rest stays zero.  The readers therefore never fail. -/

/-- Little-endian value of a byte list (first byte is least significant). -/
def leVal : List Nat → Nat
  | [] => 0
  | b :: bs => b + 256 * leVal bs

/-- Models `let mut buf = [0u8; n]; file.read_exact(&mut buf).unwrap_or_default()`:
returns the n-byte buffer (available bytes then zero padding) and the rest of
the input. -/
def read_exact_default (n : Nat) (bs : List Nat) : List Nat × List Nat :=
  (bs.take n ++ List.replicate (n - bs.length) 0, bs.drop n)

/-- Reinterprets an unsigned w-bit value as a signed integer (Rust `as iN`). -/
def toSigned (w : Nat) (v : Nat) : Int :=
  if v < 2 ^ (w - 1) then (v : Int) else (v : Int) - 2 ^ w

/-- src `read_u8`: one byte, error discarded (missing byte reads as 0). -/
def read_u8 (bs : List Nat) : Nat × List Nat :=
  let p := read_exact_default 1 bs
  (leVal p.1, p.2)

/-- src `read_i8`: `read_u8(file) as i8`. -/
def read_i8 (bs : List Nat) : Int × List Nat :=
  let p := read_u8 bs
  (toSigned 8 p.1, p.2)

/-- src `read_u16_le`: two bytes little-endian, error discarded. -/
def read_u16_le (bs : List Nat) : Nat × List Nat :=
  let p := read_exact_default 2 bs
  (leVal p.1, p.2)

/-- src `read_i16_le`: `read_u16_le(file) as i16`. -/
def read_i16_le (bs : List Nat) : Int × List Nat :=
  let p := read_u16_le bs
  (toSigned 16 p.1, p.2)

/-- `read_u32_le` is called by the source (parse_gguf_value, parse_metadata,
gguf_show) but its definition is not in src/; modelled after the sibling
readers read_u16_le/read_f64_le (read_exact with the error discarded), which
matches its use without `?` in parse_gguf_value. -/
def read_u32_le (bs : List Nat) : Nat × List Nat :=
  let p := read_exact_default 4 bs
  (leVal p.1, p.2)

/-- src `read_i32_le`: `read_u32_le(file) as i32`. -/
def read_i32_le (bs : List Nat) : Int × List Nat :=
  let p := read_u32_le bs
  (toSigned 32 p.1, p.2)

/-- `read_u64_le` is called by the source but its definition is not in src/;
modelled after the sibling readers (read_exact with the error discarded). -/
def read_u64_le (bs : List Nat) : Nat × List Nat :=
  let p := read_exact_default 8 bs
  (leVal p.1, p.2)

/-- src `read_i64_le`: `read_u64_le(file) as i64`. -/
def read_i64_le (bs : List Nat) : Int × List Nat :=
  let p := read_u64_le bs
  (toSigned 64 p.1, p.2)

/-- src `read_f32_le`: four bytes little-endian, error discarded; the
`f32::from_le_bytes` reinterpretation is modelled by the 32-bit pattern. -/
def read_f32_le (bs : List Nat) : Nat × List Nat :=
  let p := read_exact_default 4 bs
  (leVal p.1, p.2)

/-- src `read_f64_le`: eight bytes little-endian, error discarded; the
`f64::from_le_bytes` reinterpretation is modelled by the 64-bit pattern. -/
def read_f64_le (bs : List Nat) : Nat × List Nat :=
  let p := read_exact_default 8 bs
  (leVal p.1, p.2)

/-! ## GGUF metadata values (src lines 649-732) -/

/-- src `enum GgufValue`.  Float32/Float64 carry their bit patterns; String
carries the raw bytes of the decoded string. -/
inductive GgufValue where
  | Uint8 : Nat → GgufValue
  | Int8 : Int → GgufValue
  | Uint16 : Nat → GgufValue
  | Int16 : Int → GgufValue
  | Uint32 : Nat → GgufValue
  | Int32 : Int → GgufValue
  | Float32 : Nat → GgufValue
  | Bool : Bool → GgufValue
  | String : List Nat → GgufValue
  | Array : List GgufValue → GgufValue
  | Uint64 : Nat → GgufValue
  | Int64 : Int → GgufValue
  | Float64 : Nat → GgufValue

mutual
/-- src `impl Display for GgufValue` (lines 667-692).  Integer and bool
formatting matches Rust's; a Float32/Float64 is rendered from its bit
pattern (Rust's decimal float formatting is not modelled); a String's bytes
are rendered one char per byte (UTF-8 lossy decoding is not modelled). -/
def ggufValueToString : GgufValue → String
  | .Uint8 v => toString v
  | .Int8 v => toString v
  | .Uint16 v => toString v
  | .Int16 v => toString v
  | .Uint32 v => toString v
  | .Int32 v => toString v
  | .Float32 v => toString v
  | .Bool b => toString b
  | .String bs => (bs.map Char.ofNat).asString
  | .Array vs => "[" ++ String.intercalate ", " (ggufValueListStrings vs) ++ "]"
  | .Uint64 v => toString v
  | .Int64 v => toString v
  | .Float64 v => toString v

/-- The element-wise Display strings of an array's values, in order. -/
def ggufValueListStrings : List GgufValue → List String
  | [] => []
  | v :: vs => ggufValueToString v :: ggufValueListStrings vs
end

/-- `read_gguf_str` is called by the source (with `?`, so it is fallible) but
its definition is not in src/.  Modelled from the spec: a string is an 8-byte
little-endian length followed by that many bytes, and (spec 4.1) a read of n
bytes fails when fewer than n bytes remain.  The UTF-8 lossy decode is
modelled as the identity on the byte sequence.  The error payload is a
String, matching the source's `Result<_, String>` signatures. -/
def read_gguf_str (bs : List Nat) : Except String (List Nat × List Nat) :=
  if bs.length < 8 then .error "Truncated"
  else
    let len := leVal (bs.take 8)
    let rest := bs.drop 8
    if rest.length < len then .error "Truncated"
    else .ok (rest.take len, rest.drop len)

mutual
/-- src `parse_gguf_value` (lines 707-732), with an explicit fuel argument to
express the recursion through arrays.  Every byte-consuming step only ever
drops bytes, each nested array header consumes at least one byte while any
bytes remain, and fuel is spent only when descending into array elements, so
fuel `bs.length + 1` (see the wrapper `parse_gguf_value`) always suffices and
the "out of fuel" branch is unreachable there. -/
def parse_gguf_valueF : Nat → Nat → List Nat → Except String (GgufValue × List Nat)
  | 0, _, _ => .error "out of fuel"
  | fuel+1, type_id, bs =>
    match type_id with
    | 0 => let p := read_u8 bs; .ok (.Uint8 p.1, p.2)
    | 1 => let p := read_i8 bs; .ok (.Int8 p.1, p.2)
    | 2 => let p := read_u16_le bs; .ok (.Uint16 p.1, p.2)
    | 3 => let p := read_i16_le bs; .ok (.Int16 p.1, p.2)
    | 4 => let p := read_u32_le bs; .ok (.Uint32 p.1, p.2)
    | 5 => let p := read_i32_le bs; .ok (.Int32 p.1, p.2)
    | 6 => let p := read_f32_le bs; .ok (.Float32 p.1, p.2)
    | 7 => let p := read_u8 bs; .ok (.Bool (p.1 != 0), p.2)
    | 8 =>
      match read_gguf_str bs with
      | .error e => .error e
      | .ok (s, rest) => .ok (.String s, rest)
    | 9 =>
      let p1 := read_u32_le bs
      let p2 := read_u64_le p1.2
      match parse_gguf_arrF fuel p1.1 p2.1 p2.2 with
      | .error e => .error e
      | .ok (vs, rest) => .ok (.Array vs, rest)
    | 10 => let p := read_u64_le bs; .ok (.Uint64 p.1, p.2)
    | 11 => let p := read_i64_le bs; .ok (.Int64 p.1, p.2)
    | 12 => let p := read_f64_le bs; .ok (.Float64 p.1, p.2)
    | _ => .error ("Unsupported type_id: " ++ toString type_id)

/-- The `for _ in 0..len` element loop of the array case of parse_gguf_value. -/
def parse_gguf_arrF : Nat → Nat → Nat → List Nat → Except String (List GgufValue × List Nat)
  | _, _, 0, bs => .ok ([], bs)
  | fuel, arr_type, len+1, bs =>
    match parse_gguf_valueF fuel arr_type bs with
    | .error e => .error e
    | .ok (v, bs1) =>
      match parse_gguf_arrF fuel arr_type len bs1 with
      | .error e => .error e
      | .ok (vs, bs2) => .ok (v :: vs, bs2)
end

/-- src `parse_gguf_value` at its standing fuel budget (always sufficient,
see parse_gguf_valueF). -/
def parse_gguf_value (type_id : Nat) (bs : List Nat) : Except String (GgufValue × List Nat) :=
  parse_gguf_valueF (bs.length + 1) type_id bs

/-! ## Metadata table (src lines 694-704)

The source accumulates a `HashMap<String, String>`.  The map is modelled as
an association list whose `hmInsert` has exactly HashMap::insert's lookup
semantics (a later insert with the same key overwrites).  The iteration
order of the Rust HashMap is unspecified and is not modelled. -/

/-- HashMap::insert on the association-list model: the new binding shadows
and removes any previous binding of the key. -/
def hmInsert (m : List (List Nat × String)) (k : List Nat) (v : String) :
    List (List Nat × String) :=
  (k, v) :: m.filter (fun p => p.1 ≠ k)

/-- HashMap lookup on the association-list model. -/
def hmLookup (k : List Nat) (m : List (List Nat × String)) : Option String :=
  (m.find? (fun p => p.1 = k)).map Prod.snd

/-- The body of src `parse_metadata`'s `for _ in 0..n_kv` loop, with the
accumulated map made explicit: read a length-prefixed key, a 4-byte type tag,
the typed value, and insert `(key, value.to_string())`. -/
def parse_metadata_loop : Nat → List Nat → List (List Nat × String) →
    Except String (List (List Nat × String) × List Nat)
  | 0, bs, m => .ok (m, bs)
  | n+1, bs, m =>
    match read_gguf_str bs with
    | .error e => .error e
    | .ok (key, bs1) =>
      let p := read_u32_le bs1
      match parse_gguf_value p.1 p.2 with
      | .error e => .error e
      | .ok (v, bs2) => parse_metadata_loop n bs2 (hmInsert m key (ggufValueToString v))

/-- src `parse_metadata` (lines 695-704): n_kv iterations over an initially
empty map; also returns the remaining bytes. -/
def parse_metadata (n_kv : Nat) (bs : List Nat) :
    Except String (List (List Nat × String) × List Nat) :=
  parse_metadata_loop n_kv bs []

/-- The sequence of decoded metadata entries `(key, value.to_string())`, in
on-disk order, before any map insertion: the specification-level reading of
the metadata loop against which parse_metadata is compared. -/
def decode_metadata_entries : Nat → List Nat →
    Except String (List (List Nat × String) × List Nat)
  | 0, bs => .ok ([], bs)
  | n+1, bs =>
    match read_gguf_str bs with
    | .error e => .error e
    | .ok (key, bs1) =>
      let p := read_u32_le bs1
      match parse_gguf_value p.1 p.2 with
      | .error e => .error e
      | .ok (v, bs2) =>
        match decode_metadata_entries n bs2 with
        | .error e => .error e
        | .ok (l, rest) => .ok ((key, ggufValueToString v) :: l, rest)

/-! ## GGUF header (spec-modelled)

`parse_gguf_header` is called by gguf_info/gguf_show/gguf_validate but its
definition is not in src/. -/

/-- Errors of the modelled header parser (spec section 7 taxonomy). -/
inductive GgufHeaderError where
  | BadMagic : GgufHeaderError
  | Truncated : GgufHeaderError

/-- src `GgufHeader` as used by gguf_info: magic, version, n_tensors, n_kv. -/
structure GgufHeader where
  magic : Nat
  version : Nat
  n_tensors : Nat
  n_kv : Nat

/-- The GGUF magic constant "GGUF" as a little-endian u32. -/
def ggufMagic : Nat := 0x46554747

/-- Modelled from the spec: `parse_gguf_header` is absent from src/ (only its
callers are present).  Spec 4.2: read a 4-byte magic and reject immediately
with BadMagic if it differs from the constant; then a 4-byte version and an
8-byte tensor count; for version >= 3 the metadata count is the next 8 bytes,
for older versions the two counts sit in a shorter fixed-size header block
(modelled as 4-byte slots; the legacy layout's exact widths are
underdetermined by the spec and are not exercised by any claim).  The second
component is the number of bytes read from the source. -/
def parse_gguf_header (bs : List Nat) : Except GgufHeaderError GgufHeader × Nat :=
  if bs.length < 4 then (.error .Truncated, bs.length)
  else
    let magic := leVal (bs.take 4)
    if magic ≠ ggufMagic then (.error .BadMagic, 4)
    else
      let version := leVal ((bs.drop 4).take 4)
      if 3 ≤ version then
        if bs.length < 24 then (.error .Truncated, bs.length)
        else (.ok ⟨magic, version, leVal ((bs.drop 8).take 8), leVal ((bs.drop 16).take 8)⟩, 24)
      else
        if bs.length < 16 then (.error .Truncated, bs.length)
        else (.ok ⟨magic, version, leVal ((bs.drop 8).take 4), leVal ((bs.drop 12).take 4)⟩, 16)

/-! ## Tensor preview (src gguf_show, lines 302-344) -/

/-- src `GgufTensor` as used by gguf_show and gguf_info: name, dimension
count, dimensions, storage type tag, byte offset. -/
structure GgufTensor where
  name : String
  n_dims : Nat
  ne : List Nat
  type_id : Nat
  offset : Nat

/-- The tensor-data phase of src `gguf_show` (lines 316-343), given the
already-parsed tensor table and the whole file's bytes: find the tensor by
name, seek to its offset, reject non-FLOAT32 storage (type_id 6), read
min(ne_total*4, 80) bytes (read_exact here is NOT error-discarding: a short
read aborts), and emit the first min(5, data_len/4) little-endian 4-byte
values.  Values are carried as f32 bit patterns; the trailing
int_to_ternary(f as i32) display cast is not part of the decoded sequence. -/
def gguf_show_preview (tensors : List GgufTensor) (tensor_name : String) (file : List Nat) :
    Except String (List Nat) :=
  match tensors.find? (fun t => t.name == tensor_name) with
  | none => .error "Tensor not found."
  | some t =>
    if t.type_id ≠ 6 then .error "Showing only for FLOAT32 tensors as stub."
    else
      let ne_total := t.ne.foldl (fun a b => a * b) 1
      let size := ne_total * 4
      let data_len := min size 80
      if file.length < t.offset + data_len then .error "Error reading data"
      else
        let data := (file.drop t.offset).take data_len
        .ok ((List.range (min 5 (data_len / 4))).map (fun i => leVal ((data.drop (4 * i)).take 4)))

/-! ## A canonical family of nested array inputs (for the depth claims) -/

/-- The little-endian bytes of a u32. -/
def u32leBytes (n : Nat) : List Nat :=
  [n % 256, n / 256 % 256, n / 65536 % 256, n / 16777216 % 256]

/-- The little-endian bytes of a u64. -/
def u64leBytes (n : Nat) : List Nat :=
  u32leBytes (n % 4294967296) ++ u32leBytes (n / 4294967296)

/-- Byte encoding (for type tag 9) of an array nested d+1 deep:
`mkNested 0` encodes `Array []` (element type u8, length 0) and
`mkNested (d+1)` encodes a one-element array holding `mkNested d`. -/
def mkNested : Nat → List Nat
  | 0 => u32leBytes 0 ++ u64leBytes 0
  | d+1 => u32leBytes 9 ++ u64leBytes 1 ++ mkNested d

/-- The decoded value of `mkNested`. -/
def nestedVal : Nat → GgufValue
  | 0 => .Array []
  | d+1 => .Array [nestedVal d]

mutual
/-- Array-nesting depth of a decoded value (scalars have depth 0). -/
def ggufDepth : GgufValue → Nat
  | .Array vs => 1 + ggufDepthList vs
  | _ => 0

/-- Largest nesting depth among a list of values. -/
def ggufDepthList : List GgufValue → Nat
  | [] => 0
  | v :: vs => max (ggufDepth v) (ggufDepthList vs)
end

/-! ## Ternary expression evaluator (src lines 493-647)

The recursive-descent evaluator works on a shared char array and a mutable
position, modelled as explicit `(cs, pos)` state.  The mutually recursive
functions take a fuel argument that decreases on every call; `none` means the
model's fuel budget was exceeded (the source always terminates; the standing
budget `exprFuel` is generous and every theorem below either holds for all
fuels or is proved at the standing budget).  i32 arithmetic wraps via
`wrap32` (release-profile Rust semantics; debug Rust would panic on
overflow, and i32::MIN / -1 panics in both profiles - no claim exercises
those inputs).  The division function is a parameter `dv` so that theorems
can express that the evaluator's behavior is independent of what division
does on a zero divisor; the source's division is `i32div`. -/

/-- src `enum ParseError`. -/
inductive ParseError where
  | InvalidDigit : Char → ParseError
  | UnexpectedChar : Char → ParseError
  | MissingClosingParen : ParseError
  | DivisionByZero : ParseError
  | EmptyExpression : ParseError
deriving DecidableEq

/-- Wraps an integer into the i32 range (two's complement). -/
def wrap32 (x : Int) : Int :=
  (x + 2 ^ 31) % 2 ^ 32 - 2 ^ 31

/-- Rust i32 division: truncation toward zero, wrapped (i32::MIN / -1). -/
def i32div (a b : Int) : Int :=
  wrap32 (Int.tdiv a b)

/-- src `skip_whitespace`. -/
def skip_whitespace (cs : List Char) (pos : Nat) : Nat :=
  if h : pos < cs.length ∧ (cs.getD pos ' ').isWhitespace then
    skip_whitespace cs (pos + 1)
  else pos
termination_by cs.length - pos
decreasing_by omega

/-- The digit-accumulation loop of src `parse_number`:
`value = value * 3 + (c as i32 - '0' as i32)` while c is in '0'..='2'. -/
def parse_number_loop (cs : List Char) (pos : Nat) (value : Int) : Int × Nat :=
  if h : pos < cs.length ∧ '0' ≤ cs.getD pos ' ' ∧ cs.getD pos ' ' ≤ '2' then
    parse_number_loop cs (pos + 1) (wrap32 (value * 3 + (((cs.getD pos ' ').toNat : Int) - 48)))
  else (value, pos)
termination_by cs.length - pos
decreasing_by omega

/-- src `parse_number`: skip whitespace, fail UnexpectedChar('\0') at end of
input, then consume digits; no digit consumed means InvalidDigit at the
current char. -/
def parse_number (cs : List Char) (pos : Nat) : Except ParseError (Int × Nat) :=
  let pos1 := skip_whitespace cs pos
  if pos1 < cs.length then
    let p := parse_number_loop cs pos1 0
    if p.2 = pos1 then .error (.InvalidDigit (cs.getD pos1 ' '))
    else .ok p
  else .error (.UnexpectedChar (Char.ofNat 0))

mutual
/-- src `parse_expr`: a term followed by the plus and minus loop. -/
def parse_exprD (dv : Int → Int → Int) : Nat → List Char → Nat →
    Option (Except ParseError (Int × Nat))
  | 0, _, _ => none
  | fuel+1, cs, pos =>
    match parse_termD dv fuel cs pos with
    | none => none
    | some (.error e) => some (.error e)
    | some (.ok (v, pos1)) => parse_expr_loopD dv fuel cs pos1 v

/-- The while loop of src `parse_expr` handling plus and minus. -/
def parse_expr_loopD (dv : Int → Int → Int) : Nat → List Char → Nat → Int →
    Option (Except ParseError (Int × Nat))
  | 0, _, _, _ => none
  | fuel+1, cs, pos, value =>
    if pos < cs.length then
      let pos1 := skip_whitespace cs pos
      if pos1 < cs.length then
        if cs.getD pos1 ' ' = '+' then
          match parse_termD dv fuel cs (pos1 + 1) with
          | none => none
          | some (.error e) => some (.error e)
          | some (.ok (v2, pos2)) => parse_expr_loopD dv fuel cs pos2 (wrap32 (value + v2))
        else if cs.getD pos1 ' ' = '-' then
          match parse_termD dv fuel cs (pos1 + 1) with
          | none => none
          | some (.error e) => some (.error e)
          | some (.ok (v2, pos2)) => parse_expr_loopD dv fuel cs pos2 (wrap32 (value - v2))
        else some (.ok (value, pos1))
      else some (.ok (value, pos1))
    else some (.ok (value, pos))

/-- src `parse_term`: a factor followed by the times and division loop. -/
def parse_termD (dv : Int → Int → Int) : Nat → List Char → Nat →
    Option (Except ParseError (Int × Nat))
  | 0, _, _ => none
  | fuel+1, cs, pos =>
    match parse_factorD dv fuel cs pos with
    | none => none
    | some (.error e) => some (.error e)
    | some (.ok (v, pos1)) => parse_term_loopD dv fuel cs pos1 v

/-- The while loop of src `parse_term` handling times and division: a zero divisor is rejected
with DivisionByZero before any division is performed. -/
def parse_term_loopD (dv : Int → Int → Int) : Nat → List Char → Nat → Int →
    Option (Except ParseError (Int × Nat))
  | 0, _, _, _ => none
  | fuel+1, cs, pos, value =>
    if pos < cs.length then
      let pos1 := skip_whitespace cs pos
      if pos1 < cs.length then
        if cs.getD pos1 ' ' = '*' then
          match parse_factorD dv fuel cs (pos1 + 1) with
          | none => none
          | some (.error e) => some (.error e)
          | some (.ok (v2, pos2)) => parse_term_loopD dv fuel cs pos2 (wrap32 (value * v2))
        else if cs.getD pos1 ' ' = '/' then
          match parse_factorD dv fuel cs (pos1 + 1) with
          | none => none
          | some (.error e) => some (.error e)
          | some (.ok (v2, pos2)) =>
            if v2 = 0 then some (.error .DivisionByZero)
            else parse_term_loopD dv fuel cs pos2 (dv value v2)
        else some (.ok (value, pos1))
      else some (.ok (value, pos1))
    else some (.ok (value, pos))

/-- src `parse_factor`: a parenthesized expression or a ternary number. -/
def parse_factorD (dv : Int → Int → Int) : Nat → List Char → Nat →
    Option (Except ParseError (Int × Nat))
  | 0, _, _ => none
  | fuel+1, cs, pos =>
    let pos1 := skip_whitespace cs pos
    if pos1 < cs.length then
      if cs.getD pos1 ' ' = '(' then
        match parse_exprD dv fuel cs (pos1 + 1) with
        | none => none
        | some (.error e) => some (.error e)
        | some (.ok (v, pos2)) =>
          let pos3 := skip_whitespace cs pos2
          if pos3 < cs.length ∧ cs.getD pos3 ' ' = ')' then some (.ok (v, pos3 + 1))
          else some (.error .MissingClosingParen)
      else some (parse_number cs pos1)
    else some (.error (.UnexpectedChar (Char.ofNat 0)))
end

/-- Char-level model of Rust's `str::trim`. -/
def trimChars (cs : List Char) : List Char :=
  ((cs.dropWhile Char.isWhitespace).reverse.dropWhile Char.isWhitespace).reverse

/-- The model's standing fuel budget for an expression of n chars: every
parser call either consumes a char or moves one level down a chain of length
at most three (expr->term->factor), so 4n+16 is never exhausted on inputs
the theorems below touch. -/
def exprFuel (n : Nat) : Nat := 4 * n + 16

/-- src `tritjs_eval_expression`: trim, reject empty, parse an expression,
then require only whitespace after it. -/
def tritjs_eval_expression (s : List Char) : Option (Except ParseError Int) :=
  let t := trimChars s
  if t.isEmpty then some (.error .EmptyExpression)
  else
    match parse_exprD i32div (exprFuel t.length) t 0 with
    | none => none
    | some (.error e) => some (.error e)
    | some (.ok (v, pos)) =>
      match (t.drop pos).find? (fun c => !c.isWhitespace) with
      | some c => some (.error (.UnexpectedChar c))
      | none => some (.ok v)

/-! ## int_to_ternary (src lines 633-647) -/

/-- The little-endian base-3 digits pushed by src `int_to_ternary`'s loop. -/
def ternDigits : Nat → List Nat
  | 0 => []
  | m+1 => ((m + 1) % 3) :: ternDigits ((m + 1) / 3)

/-- The byte `(d % 3) as u8 + b'0'` as a char. -/
def digitChar (d : Nat) : Char := Char.ofNat (48 + d)

/-- src `int_to_ternary` (on the i32 value, result as chars): zero prints
"0"; otherwise push base-3 digits of |n| least-significant first, push '-'
for negative n, and reverse. -/
def int_to_ternary (n : Int) : List Char :=
  if n = 0 then ['0']
  else
    let ds := (ternDigits n.natAbs).map digitChar
    (if n < 0 then ds ++ ['-'] else ds).reverse

/-! ## Shared helper lemmas -/

theorem drop_eq_cons_getD {α : Type} (cs : List α) (pos : Nat) (c : α) (l : List α) (d : α)
    (h : cs.drop pos = c :: l) : cs.getD pos d = c := by
  have h0 : cs[pos]? = some c := by
    have := List.getElem?_drop cs pos 0
    rw [h] at this
    simpa using this.symm
  simp [List.getD, h0]

theorem drop_eq_cons_lt {α : Type} (cs : List α) (pos : Nat) (c : α) (l : List α)
    (h : cs.drop pos = c :: l) : pos < cs.length := by
  have := congrArg List.length h
  simp [List.length_drop] at this
  omega

theorem drop_eq_cons_succ {α : Type} (cs : List α) (pos : Nat) (c : α) (l : List α)
    (h : cs.drop pos = c :: l) : cs.drop (pos + 1) = l := by
  have h1 : cs.drop (pos + 1) = (cs.drop pos).drop 1 := by
    rw [List.drop_drop]
  rw [h1, h]
  rfl

theorem take_append_replicate_self (bs : List Nat) (n : Nat) (h : bs.length ≤ n) :
    bs.take n = bs := List.take_of_length_le h

/-- skip_whitespace does nothing when the current char is not whitespace. -/
theorem skip_whitespace_nonws (cs : List Char) (pos : Nat)
    (h : (cs.getD pos ' ').isWhitespace = false) : skip_whitespace cs pos = pos := by
  have hc : ¬ (pos < cs.length ∧ (cs.getD pos ' ').isWhitespace = true) := by
    rintro ⟨-, hw⟩
    rw [h] at hw
    exact absurd hw (by simp)
  rw [skip_whitespace, dif_neg hc]

/-- skip_whitespace does nothing past the end of input. -/
theorem skip_whitespace_oob (cs : List Char) (pos : Nat) (h : cs.length ≤ pos) :
    skip_whitespace cs pos = pos := by
  have hc : ¬ (pos < cs.length ∧ (cs.getD pos ' ').isWhitespace = true) := by
    rintro ⟨hlt, -⟩
    omega
  rw [skip_whitespace, dif_neg hc]

/-! ## C2: the byte-reading primitives on short input -/

/-- C2, counterexample.  The claim says a read of n bytes with fewer than n
remaining fails with Truncated{expected, available} and that the u16/u32/u64/
f32/f64 readers propagate that failure rather than returning a value.  In the
code every such reader discards the read_exact error (`unwrap_or_default`)
and returns a value decoded from the zero-padded buffer; the readers' types
carry no error at all.  Concretely: one byte 5 where two were requested
decodes to the u16 value 5, etc. -/
theorem c2_truncated_counterexample :
    read_u8 [] = (0, []) ∧ read_u16_le [5] = (5, []) ∧ read_u32_le [1, 2] = (513, []) ∧
    read_u64_le [255] = (255, []) ∧ read_f32_le [] = (0, []) ∧ read_f64_le [7] = (7, []) :=
  ⟨rfl, rfl, rfl, rfl, rfl, rfl⟩

/-- C2, amended: when fewer bytes remain than requested, each reader returns
the value obtained by zero-padding the remaining bytes to the requested
width (read_exact's error is discarded by `unwrap_or_default`), consuming
everything; no Truncated error exists in the code. -/
theorem c2_truncated_amended :
    (∀ bs : List Nat, bs.length < 1 → read_u8 bs = (0, [])) ∧
    (∀ bs : List Nat, bs.length < 2 →
      (read_u16_le bs).1 = (read_u16_le (bs ++ List.replicate (2 - bs.length) 0)).1 ∧
      (read_u16_le bs).2 = []) ∧
    (∀ bs : List Nat, bs.length < 4 →
      (read_u32_le bs).1 = (read_u32_le (bs ++ List.replicate (4 - bs.length) 0)).1 ∧
      (read_u32_le bs).2 = []) ∧
    (∀ bs : List Nat, bs.length < 8 →
      (read_u64_le bs).1 = (read_u64_le (bs ++ List.replicate (8 - bs.length) 0)).1 ∧
      (read_u64_le bs).2 = []) ∧
    (∀ bs : List Nat, bs.length < 4 →
      (read_f32_le bs).1 = (read_f32_le (bs ++ List.replicate (4 - bs.length) 0)).1 ∧
      (read_f32_le bs).2 = []) ∧
    (∀ bs : List Nat, bs.length < 8 →
      (read_f64_le bs).1 = (read_f64_le (bs ++ List.replicate (8 - bs.length) 0)).1 ∧
      (read_f64_le bs).2 = []) := by
  have key : ∀ (n : Nat) (bs : List Nat), bs.length < n →
      (read_exact_default n bs).1 = (read_exact_default n (bs ++ List.replicate (n - bs.length) 0)).1 ∧
      (read_exact_default n bs).2 = [] := by
    intro n bs h
    constructor
    · simp only [read_exact_default]
      rw [List.take_of_length_le (by omega),
        List.take_of_length_le (by simp [List.length_append]; omega)]
      simp
      omega
    · simp only [read_exact_default]
      exact List.drop_eq_nil_of_le (by omega)
  refine ⟨?_, ?_, ?_, ?_, ?_, ?_⟩
  · intro bs h
    have : bs = [] := List.eq_nil_of_length_eq_zero (by omega)
    subst this
    rfl
  all_goals
    intro bs h
    exact ⟨by simp only [read_u16_le, read_u32_le, read_u64_le, read_f32_le, read_f64_le,
        (key _ bs h).1], by simp only [read_u16_le, read_u32_le, read_u64_le, read_f32_le,
        read_f64_le, (key _ bs h).2]⟩

/-- C2, witness: the amended theorem applied at concrete short inputs. -/
theorem c2_truncated_witness :
    read_u8 [] = (0, []) ∧
    (read_u32_le [9]).1 = (read_u32_le ([9] ++ List.replicate (4 - [9].length) 0)).1 :=
  ⟨c2_truncated_amended.1 [] (by decide), (c2_truncated_amended.2.2.1 [9] (by decide)).1⟩

/-! ## C4: bad magic -/

/-- C4: for any input of at least four bytes whose first four bytes are not
the magic constant, the (spec-modelled) header parser fails with BadMagic
having read exactly the four magic bytes and nothing further. -/
theorem c4_bad_magic (bs : List Nat) (h4 : 4 ≤ bs.length)
    (hm : leVal (bs.take 4) ≠ ggufMagic) :
    parse_gguf_header bs = (.error .BadMagic, 4) := by
  unfold parse_gguf_header
  have h1 : ¬ bs.length < 4 := by omega
  simp [h1, hm]

/-- C4, witness: a concrete four-byte input with a wrong magic. -/
theorem c4_bad_magic_witness :
    parse_gguf_header [1, 2, 3, 4] = (.error .BadMagic, 4) :=
  c4_bad_magic [1, 2, 3, 4] (by decide) (by decide)

/-! ## C1: unrecognized metadata type tags -/

/-- C1, amended: an unrecognized type tag (13 and above; 0..12 are the
recognized tags) is a hard failure: parse_gguf_value returns an
`Unsupported type_id` error carrying the raw tag number, consuming nothing
and aborting the caller's metadata decode.  (The claim's placeholder-value
behavior does not exist in the code.) -/
theorem c1_unknown_type_amended (type_id : Nat) (fuel : Nat) (bs : List Nat)
    (h : 13 ≤ type_id) :
    parse_gguf_valueF (fuel + 1) type_id bs =
      .error ("Unsupported type_id: " ++ toString type_id) := by
  obtain ⟨k, rfl⟩ : ∃ k, type_id = k + 13 := ⟨type_id - 13, by omega⟩
  simp [parse_gguf_valueF]

/-- C1, counterexample: the spec's own scenario - a metadata entry with
unrecognized type tag 255 (key "a") followed by a valid second entry (key
"b", a u32).  parse succeeds per the claim; in the code parse_metadata
aborts with the Unsupported type_id error instead, and the second entry is
never decoded. -/
theorem c1_unknown_type_counterexample :
    parse_metadata 2 ([1, 0, 0, 0, 0, 0, 0, 0, 97, 255, 0, 0, 0] ++
      [1, 0, 0, 0, 0, 0, 0, 0, 98, 4, 0, 0, 0, 7, 0, 0, 0]) =
      .error "Unsupported type_id: 255" := by
  set_option maxRecDepth 4000 in
  simp [parse_metadata, parse_metadata_loop, read_gguf_str, read_u32_le, read_exact_default,
    leVal, parse_gguf_value, parse_gguf_valueF]
  rfl

/-- C1, witness: the amended theorem applied at tag 255. -/
theorem c1_unknown_type_witness :
    parse_gguf_valueF 1 255 [] = .error ("Unsupported type_id: " ++ toString 255) :=
  c1_unknown_type_amended 255 0 [] (by decide)

/-! ## C6: no packed-nibble dequantization exists -/

/-- C6, counterexample: a tensor stored in the packed-nibble scheme (storage
type tag 2) whose block holds a scale and codes; the claim says the preview
decoder returns scale*(code-8) values - the code instead rejects every
non-FLOAT32 tensor with the stub error and decodes nothing. -/
theorem c6_nibble_counterexample :
    gguf_show_preview [⟨"blk.0.weight", 1, [32], 2, 0⟩] "blk.0.weight"
      (List.replicate 96 0) = .error "Showing only for FLOAT32 tensors as stub." := by
  simp [gguf_show_preview]

/-- C6, amended: the preview path of gguf_show handles only FLOAT32 tensors
(type_id 6); any other storage type - including the packed-nibble block
formats - is rejected with the stub error, and no scale*(code-8)
dequantization exists anywhere in the code. -/
theorem c6_nibble_amended (tensors : List GgufTensor) (tname : String) (file : List Nat)
    (t : GgufTensor) (hfind : tensors.find? (fun u => u.name == tname) = some t)
    (htype : t.type_id ≠ 6) :
    gguf_show_preview tensors tname file =
      .error "Showing only for FLOAT32 tensors as stub." := by
  unfold gguf_show_preview
  rw [hfind]
  simp [htype]

/-- C6, witness: the amended theorem at a concrete non-FLOAT32 tensor. -/
theorem c6_nibble_witness :
    gguf_show_preview [⟨"t", 1, [4], 12, 0⟩] "t" [] =
      .error "Showing only for FLOAT32 tensors as stub." :=
  c6_nibble_amended [⟨"t", 1, [4], 12, 0⟩] "t" [] ⟨"t", 1, [4], 12, 0⟩ (by rfl) (by decide)

/-! ## C7: preview truncation

Two regimes of "fewer elements available than requested" in gguf_show:
the tensor itself is short (the print loop simply emits fewer values), and
the remaining file is short (read_exact at src lines 333-336 fails and the
program exits with "Error reading data" instead of truncating). -/

theorem mkNested_length (d : Nat) : (mkNested d).length = 12 * (d + 1) := by
  induction d with
  | zero => rfl
  | succ d ih =>
    simp [mkNested, u32leBytes, u64leBytes, ih]
    omega

/-- The canonical d+1-deep array input decodes to the exact nested structure
whenever the fuel exceeds d (and it consumes exactly its own bytes). -/
theorem parse_nested_ok (d : Nat) : ∀ (fuel : Nat) (rest : List Nat), d < fuel →
    parse_gguf_valueF fuel 9 (mkNested d ++ rest) = .ok (nestedVal d, rest) := by
  induction d with
  | zero =>
    intro fuel rest h
    obtain ⟨f, rfl⟩ : ∃ f, fuel = f + 1 := ⟨fuel - 1, by omega⟩
    simp [mkNested, u32leBytes, u64leBytes, parse_gguf_valueF, read_u32_le, read_u64_le,
      read_exact_default, leVal, parse_gguf_arrF, nestedVal]
  | succ d ih =>
    intro fuel rest h
    obtain ⟨f, rfl⟩ : ∃ f, fuel = f + 1 := ⟨fuel - 1, by omega⟩
    have hd : d < f := by omega
    simp [mkNested, u32leBytes, u64leBytes, parse_gguf_valueF, read_u32_le, read_u64_le,
      read_exact_default, leVal, parse_gguf_arrF, nestedVal, List.append_assoc,
      ih f rest hd]

/-- At its standing fuel budget, parse_gguf_value decodes the canonical
d+1-deep array completely. -/
theorem parse_gguf_value_mkNested (d : Nat) :
    parse_gguf_value 9 (mkNested d) = .ok (nestedVal d, []) := by
  have h := parse_nested_ok d ((mkNested d).length + 1) [] (by rw [mkNested_length]; omega)
  simpa [parse_gguf_value] using h

theorem ggufDepth_nestedVal (d : Nat) : ggufDepth (nestedVal d) = d + 1 := by
  induction d with
  | zero => rfl
  | succ d ih =>
    simp [nestedVal, ggufDepth, ggufDepthList, ih]
    omega

/-- C3, counterexample.  The claim presupposes a configured maximum depth D
such that a D+1-deep array fails to decode with TooDeep.  No such bound
exists in the code: for every candidate D, the canonical array of depth D+1
(`mkNested D`, whose decoded depth is D+1 by ggufDepth_nestedVal) decodes
successfully; indeed the code's error type is a plain String and no TooDeep
error exists. -/
theorem c3_depth_counterexample :
    ¬ ∃ D : Nat, ∃ e : String, parse_gguf_value 9 (mkNested D) = .error e := by
  rintro ⟨D, e, h⟩
  rw [parse_gguf_value_mkNested D] at h
  exact absurd h (by simp)

/-- C3, amended: recursive decoding reproduces the exact nested structure at
every depth; there is no depth bound and no TooDeep error - for each d the
canonical input decodes to the full d+1-deep value. -/
theorem c3_depth_amended (d : Nat) :
    parse_gguf_value 9 (mkNested d) = .ok (nestedVal d, []) ∧
    ggufDepth (nestedVal d) = d + 1 :=
  ⟨parse_gguf_value_mkNested d, ggufDepth_nestedVal d⟩

/-! ## C5: the metadata loop -/

/-- The metadata loop is the insert-fold of the in-order entry sequence. -/
theorem parse_metadata_loop_entries (n : Nat) :
    ∀ (bs : List Nat) (m : List (List Nat × String)),
    parse_metadata_loop n bs m =
      match decode_metadata_entries n bs with
      | .error e => .error e
      | .ok p => .ok (p.1.foldl (fun acc kv => hmInsert acc kv.1 kv.2) m, p.2) := by
  induction n with
  | zero => intro bs m; rfl
  | succ n ih =>
    intro bs m
    simp only [parse_metadata_loop, decode_metadata_entries]
    cases read_gguf_str bs with
    | error e => rfl
    | ok p =>
      obtain ⟨key, bs1⟩ := p
      dsimp only
      cases parse_gguf_value (read_u32_le bs1).1 (read_u32_le bs1).2 with
      | error e => rfl
      | ok q =>
        obtain ⟨v, bs2⟩ := q
        dsimp only
        rw [ih bs2 (hmInsert m key (ggufValueToString v))]
        cases decode_metadata_entries n bs2 with
        | error e => rfl
        | ok r => rfl

theorem hmLookup_insert_same (m : List (List Nat × String)) (k : List Nat) (v : String) :
    hmLookup k (hmInsert m k v) = some v := by
  simp [hmLookup, hmInsert, List.find?_cons]

theorem find?_filter_swap {α : Type} (l : List α) (p q : α → Bool)
    (h : ∀ a, p a = true → q a = true) : (l.filter q).find? p = l.find? p := by
  induction l with
  | nil => rfl
  | cons a l ih =>
    by_cases hq : q a = true
    · rw [List.filter_cons_of_pos hq]
      by_cases hp : p a = true
      · rw [List.find?_cons_of_pos _ hp, List.find?_cons_of_pos _ hp]
      · rw [List.find?_cons_of_neg _ (by simpa using hp),
          List.find?_cons_of_neg _ (by simpa using hp), ih]
    · have hp : ¬ p a = true := fun hpa => hq (h a hpa)
      rw [List.filter_cons_of_neg (by simpa using hq), ih,
        List.find?_cons_of_neg _ (by simpa using hp)]

theorem hmLookup_insert_other (m : List (List Nat × String)) (k : List Nat) (v : String)
    (k' : List Nat) (h : k' ≠ k) :
    hmLookup k' (hmInsert m k v) = hmLookup k' m := by
  have hk : ¬ (k = k') := fun hh => h hh.symm
  unfold hmLookup hmInsert
  rw [List.find?_cons_of_neg _ (by simpa using hk),
    find?_filter_swap m (fun p => p.1 = k') (fun p => p.1 ≠ k)
      (fun a ha => by
        simp only [decide_eq_true_eq] at ha
        simpa [ha] using h)]

/-- C5, counterexample.  The claim says the decoder performs exactly n
iterations, each decoding and inserting an entry, for every byte source.
With n = 1 and an empty source the key read fails and parse_metadata
returns the error: no iteration completes and no table is produced. -/
theorem c5_metadata_counterexample : parse_metadata 1 [] = .error "Truncated" := rfl

/-- C5, amended: when every entry decodes, parse_metadata performs exactly n
iterations and its table is the insert-fold of the in-order entry sequence
(key, 4-byte tag, typed value rendered to string); an entry that fails to
decode aborts the whole metadata decode with its error.  hmInsert has
HashMap::insert's semantics: a later entry with the same key overwrites the
earlier binding and leaves other keys unchanged. -/
theorem c5_metadata_amended :
    (∀ (n : Nat) (bs : List Nat),
      parse_metadata n bs =
        match decode_metadata_entries n bs with
        | .error e => .error e
        | .ok p => .ok (p.1.foldl (fun acc kv => hmInsert acc kv.1 kv.2) [], p.2)) ∧
    (∀ m k v, hmLookup k (hmInsert m k v) = some v) ∧
    (∀ m k v k', k' ≠ k → hmLookup k' (hmInsert m k v) = hmLookup k' m) :=
  ⟨fun n bs => parse_metadata_loop_entries n bs [],
   hmLookup_insert_same,
   hmLookup_insert_other⟩

/-- C5, witness: the amended theorem's overwrite clauses at concrete keys. -/
theorem c5_metadata_witness :
    hmLookup [97] (hmInsert [([97], "5")] [97] "7") = some "7" ∧
    hmLookup [98] (hmInsert [([98], "9")] [97] "7") = hmLookup [98] [([98], "9")] :=
  ⟨c5_metadata_amended.2.1 [([97], "5")] [97] "7",
   c5_metadata_amended.2.2 [([98], "9")] [97] "7" [98] (by decide)⟩

/-! ## C9: digit-string infrastructure -/

/-- The spec-level base-3 value of a big-endian digit list over Nat. -/
def natTernVal (a : Nat) (ds : List Nat) : Nat :=
  ds.foldl (fun x d => 3 * x + d) a

theorem digitChar_props (d : Nat) (h : d < 3) :
    '0' ≤ digitChar d ∧ digitChar d ≤ '2' ∧ (digitChar d).toNat = 48 + d ∧
    (digitChar d).isWhitespace = false ∧ digitChar d ≠ '(' := by
  interval_cases d <;> exact ⟨by decide, by decide, by decide, by decide, by decide⟩

theorem wrap32_eq_self (x : Int) (h1 : -(2 ^ 31) ≤ x) (h2 : x < 2 ^ 31) : wrap32 x = x := by
  unfold wrap32
  rw [Int.emod_eq_of_lt (by omega) (by omega)]
  omega

theorem parse_number_loop_stop (cs : List Char) (pos : Nat) (value : Int)
    (h : ¬ (pos < cs.length ∧ '0' ≤ cs.getD pos ' ' ∧ cs.getD pos ' ' ≤ '2')) :
    parse_number_loop cs pos value = (value, pos) := by
  rw [parse_number_loop, dif_neg h]

theorem parse_number_loop_step (cs : List Char) (pos : Nat) (value : Int)
    (h : pos < cs.length ∧ '0' ≤ cs.getD pos ' ' ∧ cs.getD pos ' ' ≤ '2') :
    parse_number_loop cs pos value =
      parse_number_loop cs (pos + 1) (wrap32 (value * 3 + (((cs.getD pos ' ').toNat : Int) - 48))) := by
  rw [parse_number_loop, dif_pos h]

/-- Running the digit loop over a digit-only tail: it consumes to the end of
input and folds the digits into the accumulator. -/
theorem parse_number_loop_run (ds : List Nat) :
    ∀ (cs : List Char) (pos : Nat) (a : Int), (∀ d ∈ ds, d < 3) → pos ≤ cs.length →
    cs.drop pos = ds.map digitChar →
    parse_number_loop cs pos a =
      (ds.foldl (fun x d => wrap32 (x * 3 + (d : Int))) a, cs.length) := by
  induction ds with
  | nil =>
    intro cs pos a _ hle hdrop
    have hlen : cs.length ≤ pos := by
      have := congrArg List.length hdrop
      simp [List.length_drop] at this
      omega
    have hpos : pos = cs.length := by omega
    rw [parse_number_loop_stop cs pos a (by rw [hpos]; rintro ⟨hlt, -⟩; omega)]
    rw [hpos]
    rfl
  | cons d ds ih =>
    intro cs pos a h3 hle hdrop
    have hd3 : d < 3 := h3 d (by simp)
    obtain ⟨hge, hle2, htn, -, -⟩ := digitChar_props d hd3
    have hget : cs.getD pos ' ' = digitChar d := drop_eq_cons_getD cs pos _ _ ' ' hdrop
    have hlt : pos < cs.length := drop_eq_cons_lt cs pos _ _ hdrop
    have hnext : cs.drop (pos + 1) = ds.map digitChar := drop_eq_cons_succ cs pos _ _ hdrop
    rw [parse_number_loop_step cs pos a (by rw [hget]; exact ⟨hlt, hge, hle2⟩)]
    rw [hget, htn]
    have harith : ((48 + d : Nat) : Int) - 48 = (d : Int) := by push_cast; ring
    rw [harith]
    rw [ih cs (pos + 1) _ (fun x hx => h3 x (by simp [hx])) (by omega) hnext]
    rfl

theorem natTernVal_le (ds : List Nat) : ∀ a : Nat, a ≤ natTernVal a ds := by
  induction ds with
  | nil => intro a; exact le_refl a
  | cons d ds ih =>
    intro a
    have h1 : a ≤ 3 * a + d := by omega
    exact le_trans h1 (ih (3 * a + d))

/-- Over canonical digits whose final value stays below 2^31, the wrapping
i32 fold coincides with the Nat fold (no overflow happens). -/
theorem fold_wrap_eq (ds : List Nat) :
    ∀ a : Nat, (∀ d ∈ ds, d < 3) → natTernVal a ds < 2 ^ 31 →
    ds.foldl (fun x d => wrap32 (x * 3 + (d : Int))) (a : Int) = (natTernVal a ds : Int) := by
  induction ds with
  | nil => intro a _ _; rfl
  | cons d ds ih =>
    intro a h3 hbound
    have hstep : natTernVal (3 * a + d) ds = natTernVal a (d :: ds) := rfl
    have hlt : 3 * a + d < 2 ^ 31 := by
      have := natTernVal_le ds (3 * a + d)
      rw [hstep] at this
      omega
    have hw : wrap32 ((a : Int) * 3 + (d : Int)) = ((3 * a + d : Nat) : Int) := by
      have : (a : Int) * 3 + (d : Int) = ((3 * a + d : Nat) : Int) := by push_cast; ring
      rw [this]
      exact wrap32_eq_self _ (by omega) (by exact_mod_cast hlt)
    calc (d :: ds).foldl (fun x d => wrap32 (x * 3 + (d : Int))) (a : Int)
        = ds.foldl (fun x d => wrap32 (x * 3 + (d : Int))) ((3 * a + d : Nat) : Int) := by
          simp [List.foldl_cons, hw]
      _ = (natTernVal (3 * a + d) ds : Int) := ih (3 * a + d) (fun x hx => h3 x (by simp [hx]))
          (by rw [hstep]; exact hbound)
      _ = (natTernVal a (d :: ds) : Int) := by rw [hstep]

theorem natTernVal_append (a : Nat) (ds : List Nat) (d : Nat) :
    natTernVal a (ds ++ [d]) = 3 * natTernVal a ds + d := by
  simp [natTernVal, List.foldl_append]

theorem natTernVal_ternDigits (m : Nat) : natTernVal 0 ((ternDigits m).reverse) = m := by
  induction m using Nat.strong_induction_on with
  | _ m ih =>
    match m with
    | 0 => simp [ternDigits, natTernVal]
    | k + 1 =>
      rw [ternDigits, List.reverse_cons, natTernVal_append,
        ih ((k + 1) / 3) (by omega)]
      omega

theorem ternDigits_lt3 (m : Nat) : ∀ d ∈ ternDigits m, d < 3 := by
  induction m using Nat.strong_induction_on with
  | _ m ih =>
    match m with
    | 0 => intro d hd; simp [ternDigits] at hd
    | k + 1 =>
      intro d hd
      rw [ternDigits] at hd
      rcases List.mem_cons.1 hd with h | h
      · omega
      · exact ih ((k + 1) / 3) (by omega) d h

/-! ## C9: evaluating a pure digit string -/

theorem parse_number_digits (ds : List Nat) (h3 : ∀ d ∈ ds, d < 3) (hne : ds ≠ []) :
    parse_number (ds.map digitChar) 0 =
      .ok (ds.foldl (fun x d => wrap32 (x * 3 + (d : Int))) 0, ds.length) := by
  obtain ⟨d, ds', rfl⟩ := List.exists_cons_of_ne_nil hne
  have hd3 : d < 3 := h3 d (by simp)
  obtain ⟨-, -, -, hws, -⟩ := digitChar_props d hd3
  have hget : (List.map digitChar (d :: ds')).getD 0 ' ' = digitChar d := rfl
  have hskip : skip_whitespace (List.map digitChar (d :: ds')) 0 = 0 :=
    skip_whitespace_nonws _ 0 (by rw [hget]; exact hws)
  have hlen : 0 < (List.map digitChar (d :: ds')).length := by simp
  have hrun := parse_number_loop_run (d :: ds') (List.map digitChar (d :: ds')) 0 0 h3
    (by omega) (by simp)
  unfold parse_number
  rw [hskip]
  simp only [hrun, if_pos hlen]
  have : (List.map digitChar (d :: ds')).length ≠ 0 := by simp
  simp [this]

theorem parse_term_loop_end (dv : Int → Int → Int) (fuel : Nat) (cs : List Char) (pos : Nat)
    (v : Int) (h : cs.length ≤ pos) :
    parse_term_loopD dv (fuel + 1) cs pos v = some (.ok (v, pos)) := by
  simp only [parse_term_loopD]
  rw [if_neg (by omega)]

theorem parse_expr_loop_end (dv : Int → Int → Int) (fuel : Nat) (cs : List Char) (pos : Nat)
    (v : Int) (h : cs.length ≤ pos) :
    parse_expr_loopD dv (fuel + 1) cs pos v = some (.ok (v, pos)) := by
  simp only [parse_expr_loopD]
  rw [if_neg (by omega)]

theorem parse_factor_digits (dv : Int → Int → Int) (fuel : Nat) (ds : List Nat)
    (h3 : ∀ d ∈ ds, d < 3) (hne : ds ≠ []) :
    parse_factorD dv (fuel + 1) (ds.map digitChar) 0 =
      some (.ok (ds.foldl (fun x d => wrap32 (x * 3 + (d : Int))) 0, ds.length)) := by
  obtain ⟨d, ds', rfl⟩ := List.exists_cons_of_ne_nil hne
  have hd3 : d < 3 := h3 d (by simp)
  obtain ⟨-, -, -, hws, hpar⟩ := digitChar_props d hd3
  have hget : (List.map digitChar (d :: ds')).getD 0 ' ' = digitChar d := rfl
  have hskip : skip_whitespace (List.map digitChar (d :: ds')) 0 = 0 :=
    skip_whitespace_nonws _ 0 (by rw [hget]; exact hws)
  simp only [parse_factorD]
  rw [hskip]
  rw [if_pos (by simp), hget, if_neg hpar]
  rw [parse_number_digits _ h3 (by simp)]

theorem parse_term_digits (dv : Int → Int → Int) (fuel : Nat) (ds : List Nat)
    (h3 : ∀ d ∈ ds, d < 3) (hne : ds ≠ []) :
    parse_termD dv (fuel + 2) (ds.map digitChar) 0 =
      some (.ok (ds.foldl (fun x d => wrap32 (x * 3 + (d : Int))) 0, ds.length)) := by
  simp only [parse_termD]
  rw [parse_factor_digits dv fuel ds h3 hne]
  exact parse_term_loop_end dv fuel _ ds.length _ (by simp)

theorem parse_expr_digits (dv : Int → Int → Int) (fuel : Nat) (ds : List Nat)
    (h3 : ∀ d ∈ ds, d < 3) (hne : ds ≠ []) :
    parse_exprD dv (fuel + 3) (ds.map digitChar) 0 =
      some (.ok (ds.foldl (fun x d => wrap32 (x * 3 + (d : Int))) 0, ds.length)) := by
  simp only [parse_exprD]
  rw [parse_term_digits dv fuel ds h3 hne]
  exact parse_expr_loop_end dv (fuel + 1) _ ds.length _ (by simp)

theorem dropWhile_eq_self_of_false {p : Char → Bool} (l : List Char)
    (h : ∀ c ∈ l, p c = false) : l.dropWhile p = l := by
  cases l with
  | nil => rfl
  | cons a l =>
    rw [List.dropWhile_cons]
    simp [h a (by simp)]

theorem trimChars_eq_self (cs : List Char) (h : ∀ c ∈ cs, c.isWhitespace = false) :
    trimChars cs = cs := by
  unfold trimChars
  rw [dropWhile_eq_self_of_false cs h]
  rw [dropWhile_eq_self_of_false cs.reverse (fun c hc => h c (List.mem_reverse.1 hc))]
  exact List.reverse_reverse cs

/-- Evaluating a nonempty pure digit string yields the wrapped base-3 fold
of its digits. -/
theorem tritjs_digits (ds : List Nat) (h3 : ∀ d ∈ ds, d < 3) (hne : ds ≠ []) :
    tritjs_eval_expression (ds.map digitChar) =
      some (.ok (ds.foldl (fun x d => wrap32 (x * 3 + (d : Int))) 0)) := by
  have hws : ∀ c ∈ ds.map digitChar, c.isWhitespace = false := by
    intro c hc
    obtain ⟨d, hd, rfl⟩ := List.mem_map.1 hc
    exact (digitChar_props d (h3 d hd)).2.2.2.1
  have htrim : trimChars (ds.map digitChar) = ds.map digitChar := trimChars_eq_self _ hws
  unfold tritjs_eval_expression
  rw [htrim]
  have hnonempty : (ds.map digitChar).isEmpty = false := by
    cases ds with
    | nil => exact absurd rfl hne
    | cons d ds' => rfl
  rw [if_neg (by simp [hnonempty])]
  have hfuel : exprFuel (ds.map digitChar).length = (4 * ds.length + 13) + 3 := by
    simp [exprFuel]
  rw [hfuel, parse_expr_digits i32div (4 * ds.length + 13) ds h3 hne]
  have hdrop : (ds.map digitChar).drop ds.length = [] := by
    apply List.drop_eq_nil_of_le
    simp
  dsimp only
  rw [hdrop]
  rfl

/-- C9: for every non-negative i32 value n, evaluating the ternary string
produced by int_to_ternary(n) returns exactly n: the conversion and the
evaluator's number parsing are mutually inverse on non-negative i32 values,
and no i32 overflow occurs along the way. -/
theorem c9_ternary_roundtrip (n : Int) (h0 : 0 ≤ n) (h1 : n < 2 ^ 31) :
    tritjs_eval_expression (int_to_ternary n) = some (.ok n) := by
  by_cases hz : n = 0
  · subst hz
    have hform : int_to_ternary 0 = [0].map digitChar := by decide
    rw [hform, tritjs_digits [0] (by simp) (by simp)]
    simp [wrap32_eq_self 0 (by omega) (by omega)]
  · obtain ⟨m, rfl⟩ := Int.eq_ofNat_of_zero_le h0
    have hm1 : 1 ≤ m := by
      rcases Nat.eq_zero_or_pos m with h | h
      · subst h
        simp at hz
      · omega
    have hform : int_to_ternary (m : Int) = ((ternDigits m).reverse).map digitChar := by
      unfold int_to_ternary
      rw [if_neg hz]
      simp only [Int.natAbs_ofNat]
      rw [if_neg (by omega : ¬ (m : Int) < 0), List.map_reverse]
    have h3 : ∀ d ∈ (ternDigits m).reverse, d < 3 := by
      intro d hd
      exact ternDigits_lt3 m d (List.mem_reverse.1 hd)
    have hne : (ternDigits m).reverse ≠ [] := by
      obtain ⟨k, hk⟩ : ∃ k, m = k + 1 := ⟨m - 1, by omega⟩
      rw [hk, ternDigits]
      simp
    rw [hform, tritjs_digits _ h3 hne]
    have hval : natTernVal 0 ((ternDigits m).reverse) = m := natTernVal_ternDigits m
    have hbound : natTernVal 0 ((ternDigits m).reverse) < 2 ^ 31 := by
      rw [hval]
      exact_mod_cast h1
    have hfold := fold_wrap_eq ((ternDigits m).reverse) 0 h3 hbound
    rw [show ((0 : Nat) : Int) = (0 : Int) from rfl] at hfold
    rw [hfold, hval]

/-- C9, witness: the roundtrip at n = 42 (ternary "1120"). -/
theorem c9_ternary_roundtrip_witness :
    tritjs_eval_expression (int_to_ternary 42) = some (.ok 42) :=
  c9_ternary_roundtrip 42 (by norm_num) (by norm_num)

/-! ## C10: the evaluator never divides by zero -/

/-- The evaluator's behavior does not depend on what the division function
returns on a zero divisor: any two division functions agreeing on nonzero
divisors yield identical parses.  Since parse_term checks `next == 0` and
returns DivisionByZero before dividing, no division with a zero divisor is
ever evaluated. -/
theorem div_oracle (dv1 dv2 : Int → Int → Int) (h : ∀ a b, b ≠ 0 → dv1 a b = dv2 a b) :
    ∀ fuel : Nat,
      (∀ cs pos, parse_exprD dv1 fuel cs pos = parse_exprD dv2 fuel cs pos) ∧
      (∀ cs pos v, parse_expr_loopD dv1 fuel cs pos v = parse_expr_loopD dv2 fuel cs pos v) ∧
      (∀ cs pos, parse_termD dv1 fuel cs pos = parse_termD dv2 fuel cs pos) ∧
      (∀ cs pos v, parse_term_loopD dv1 fuel cs pos v = parse_term_loopD dv2 fuel cs pos v) ∧
      (∀ cs pos, parse_factorD dv1 fuel cs pos = parse_factorD dv2 fuel cs pos) := by
  intro fuel
  induction fuel with
  | zero =>
    refine ⟨fun cs pos => ?_, fun cs pos v => ?_, fun cs pos => ?_, fun cs pos v => ?_,
      fun cs pos => ?_⟩ <;>
      simp [parse_exprD, parse_expr_loopD, parse_termD, parse_term_loopD, parse_factorD]
  | succ fuel ih =>
    obtain ⟨ihe, ihel, iht, ihtl, ihf⟩ := ih
    have hterm : ∀ cs pos,
        parse_termD dv1 (fuel + 1) cs pos = parse_termD dv2 (fuel + 1) cs pos := by
      intro cs pos
      simp only [parse_termD]
      rw [ihf cs pos]
      cases parse_factorD dv2 fuel cs pos with
      | none => rfl
      | some r =>
        cases r with
        | error e => rfl
        | ok p =>
          obtain ⟨v, pos1⟩ := p
          exact ihtl cs pos1 v
    have hfactor : ∀ cs pos,
        parse_factorD dv1 (fuel + 1) cs pos = parse_factorD dv2 (fuel + 1) cs pos := by
      intro cs pos
      simp only [parse_factorD]
      by_cases h1 : skip_whitespace cs pos < cs.length
      · simp only [if_pos h1]
        by_cases h2 : cs.getD (skip_whitespace cs pos) ' ' = '('
        · simp only [if_pos h2]
          rw [ihe cs (skip_whitespace cs pos + 1)]
        · simp only [if_neg h2]
      · simp only [if_neg h1]
    refine ⟨?_, ?_, hterm, ?_, hfactor⟩
    · intro cs pos
      simp only [parse_exprD]
      rw [iht cs pos]
      cases parse_termD dv2 fuel cs pos with
      | none => rfl
      | some r =>
        cases r with
        | error e => rfl
        | ok p =>
          obtain ⟨v, pos1⟩ := p
          exact ihel cs pos1 v
    · intro cs pos v
      simp only [parse_expr_loopD]
      by_cases h1 : pos < cs.length
      · simp only [if_pos h1]
        by_cases h2 : skip_whitespace cs pos < cs.length
        · simp only [if_pos h2]
          by_cases h3 : cs.getD (skip_whitespace cs pos) ' ' = '+'
          · simp only [if_pos h3]
            rw [iht cs (skip_whitespace cs pos + 1)]
            cases parse_termD dv2 fuel cs (skip_whitespace cs pos + 1) with
            | none => rfl
            | some r =>
              cases r with
              | error e => rfl
              | ok p =>
                obtain ⟨v2, pos2⟩ := p
                exact ihel cs pos2 (wrap32 (v + v2))
          · simp only [if_neg h3]
            by_cases h4 : cs.getD (skip_whitespace cs pos) ' ' = '-'
            · simp only [if_pos h4]
              rw [iht cs (skip_whitespace cs pos + 1)]
              cases parse_termD dv2 fuel cs (skip_whitespace cs pos + 1) with
              | none => rfl
              | some r =>
                cases r with
                | error e => rfl
                | ok p =>
                  obtain ⟨v2, pos2⟩ := p
                  exact ihel cs pos2 (wrap32 (v - v2))
            · simp only [if_neg h4]
        · simp only [if_neg h2]
      · simp only [if_neg h1]
    · intro cs pos v
      simp only [parse_term_loopD]
      by_cases h1 : pos < cs.length
      · simp only [if_pos h1]
        by_cases h2 : skip_whitespace cs pos < cs.length
        · simp only [if_pos h2]
          by_cases h3 : cs.getD (skip_whitespace cs pos) ' ' = '*'
          · simp only [if_pos h3]
            rw [ihf cs (skip_whitespace cs pos + 1)]
            cases parse_factorD dv2 fuel cs (skip_whitespace cs pos + 1) with
            | none => rfl
            | some r =>
              cases r with
              | error e => rfl
              | ok p =>
                obtain ⟨v2, pos2⟩ := p
                exact ihtl cs pos2 (wrap32 (v * v2))
          · simp only [if_neg h3]
            by_cases h4 : cs.getD (skip_whitespace cs pos) ' ' = '/'
            · simp only [if_pos h4]
              rw [ihf cs (skip_whitespace cs pos + 1)]
              cases parse_factorD dv2 fuel cs (skip_whitespace cs pos + 1) with
              | none => rfl
              | some r =>
                cases r with
                | error e => rfl
                | ok p =>
                  obtain ⟨v2, pos2⟩ := p
                  dsimp only
                  by_cases h5 : v2 = 0
                  · simp only [if_pos h5]
                  · simp only [if_neg h5]
                    rw [h v v2 h5]
                    exact ihtl cs pos2 (dv2 v v2)
            · simp only [if_neg h4]
        · simp only [if_neg h2]
      · simp only [if_neg h1]

/-- C10: the evaluator never executes an integer division with a zero
divisor, and a division whose right-hand factor evaluates to zero returns
DivisionByZero.  Part 1 states the no-division-by-zero property
observationally: the parse is unchanged by replacing the division function
with ANY function agreeing with it on nonzero divisors - so the value of a
division at divisor zero is never consulted.  Part 2 exhibits the
DivisionByZero error on an expression whose divisor "(1-1)" evaluates to
zero; part 3 checks a normal division still divides. -/
theorem c10_division_guard :
    (∀ dv1 dv2 : Int → Int → Int, (∀ a b, b ≠ 0 → dv1 a b = dv2 a b) →
      ∀ (fuel : Nat) (cs : List Char) (pos : Nat),
        parse_exprD dv1 fuel cs pos = parse_exprD dv2 fuel cs pos) ∧
    tritjs_eval_expression ("10/(1-1)".toList) = some (.error .DivisionByZero) ∧
    tritjs_eval_expression ("10/2".toList) = some (.ok 1) := by
  refine ⟨fun dv1 dv2 h fuel cs pos => (div_oracle dv1 dv2 h fuel).1 cs pos, ?_, ?_⟩
  · set_option maxRecDepth 8000 in
    simp +decide [tritjs_eval_expression, trimChars, exprFuel, parse_exprD, parse_expr_loopD,
      parse_termD, parse_term_loopD, parse_factorD, parse_number, parse_number_loop,
      skip_whitespace, i32div, wrap32]
  · set_option maxRecDepth 8000 in
    simp +decide [tritjs_eval_expression, trimChars, exprFuel, parse_exprD, parse_expr_loopD,
      parse_termD, parse_term_loopD, parse_factorD, parse_number, parse_number_loop,
      skip_whitespace, i32div, wrap32, Int.tdiv]

/-- C10, witness: the oracle clause applied with the source's division and a
division function that differs only at divisor zero, on a concrete input
that does divide. -/
theorem c10_division_guard_witness :
    parse_exprD i32div 20 ("10/2".toList) 0 =
      parse_exprD (fun a b => if b = 0 then 37 else i32div a b) 20 ("10/2".toList) 0 :=
  c10_division_guard.1 i32div (fun a b => if b = 0 then 37 else i32div a b)
    (fun a b hb => by simp [hb]) 20 ("10/2".toList) 0
